import Mathlib

/-!
Verification of the NSEC3 hash precomputation engine (`src/main.rs`).

The development shallowly embeds the program's core: the iterated salted
SHA-1 hash with base-32 output (`calculate_nsec3_hash`), the wordlist
loader (`load_wordlist`), the MD5-derived cache filename
(`get_cache_filename`), the reverse lookup table built by hash insertion
(`generate_hash_for_config`), and the batch orchestrator
(`generate_common_configs`).  Machine integers are modelled as `Nat`
with explicit reduction modulo `2^32` (words) and `256` (bytes); the
bit masks `&&& 31` / `&&& 255` of the Rust libraries are rendered as
`% 32` / `% 256`, which agree on these operands.
-/

/-- `2^32`, the word modulus of SHA-1 and MD5. -/
def M32 : Nat := 4294967296

/-- Rotate the low 32 bits of `x` left by `k` (for `0 < k < 32`). -/
def rotl (k x : Nat) : Nat := ((x <<< k) % M32) ||| ((x % M32) >>> (32 - k))

/-- Big-endian 32-bit word from four bytes. -/
def beWord (a b c d : Nat) : Nat :=
  ((a % 256) <<< 24) ||| ((b % 256) <<< 16) ||| ((c % 256) <<< 8) ||| (d % 256)

/-- The four big-endian bytes of a 32-bit word. -/
def be4 (w : Nat) : List Nat := [(w >>> 24) % 256, (w >>> 16) % 256, (w >>> 8) % 256, w % 256]

/-- The eight big-endian bytes of a 64-bit value. -/
def be8 (n : Nat) : List Nat := be4 (n >>> 32) ++ be4 n

/-- SHA-1 / MD5 padding: `0x80`, zeros to 56 mod 64, then the 8-byte bit
length (big-endian here; MD5 uses the little-endian variant below). -/
def sha1_pad (msg : List Nat) : List Nat :=
  msg ++ [128] ++ List.replicate ((119 - msg.length % 64) % 64) 0 ++ be8 (8 * msg.length)

/-- Split a byte list into 64-byte chunks (fuel-driven so that it reduces
definitionally; the fuel is always instantiated large enough). -/
def chunksOf64 : Nat → List Nat → List (List Nat)
  | 0, _ => []
  | _ + 1, [] => []
  | fuel + 1, l => l.take 64 :: chunksOf64 fuel (l.drop 64)

/-- The sixteen big-endian 32-bit words of a 64-byte block. -/
def toWords : List Nat → List Nat
  | a :: b :: c :: d :: rest => beWord a b c d :: toWords rest
  | _ => []

/-- SHA-1 message schedule, extending a reversed word list one word at a
time: `w[t] = rotl1 (w[t-3] xor w[t-8] xor w[t-14] xor w[t-16])`. -/
def sha1_expand : Nat → List Nat → List Nat
  | 0, ws => ws
  | n + 1, ws =>
      sha1_expand n (rotl 1 (ws.getD 2 0 ^^^ ws.getD 7 0 ^^^ ws.getD 13 0 ^^^ ws.getD 15 0) :: ws)

/-- SHA-1 round function, by round number `t`. -/
def sha1_f (t b c d : Nat) : Nat :=
  if t < 20 then (b &&& c) ||| ((b ^^^ 4294967295) &&& d)
  else if t < 40 then b ^^^ c ^^^ d
  else if t < 60 then (b &&& c) ||| (b &&& d) ||| (c &&& d)
  else b ^^^ c ^^^ d

/-- SHA-1 round constants, by round number `t`. -/
def sha1_k (t : Nat) : Nat :=
  if t < 20 then 1518500249
  else if t < 40 then 1859775393
  else if t < 60 then 2400959708
  else 3395469782

/-- One SHA-1 compression round on the working state `(t, (a, b, c, d, e))`. -/
def sha1_step (p : Nat × (Nat × Nat × Nat × Nat × Nat)) (w : Nat) :
    Nat × (Nat × Nat × Nat × Nat × Nat) :=
  match p with
  | (t, (a, b, c, d, e)) =>
      (t + 1, ((rotl 5 a + sha1_f t b c d + e + sha1_k t + w) % M32, a, rotl 30 b, c, d))

/-- SHA-1 compression of one 64-byte block into the running state. -/
def sha1_compress (h : Nat × Nat × Nat × Nat × Nat) (block : List Nat) :
    Nat × Nat × Nat × Nat × Nat :=
  let ws := (sha1_expand 64 (toWords block).reverse).reverse
  match h with
  | (h0, h1, h2, h3, h4) =>
      match (ws.foldl sha1_step (0, (h0, h1, h2, h3, h4))).2 with
      | (a, b, c, d, e) =>
          ((h0 + a) % M32, (h1 + b) % M32, (h2 + c) % M32, (h3 + d) % M32, (h4 + e) % M32)

/-- SHA-1 initial state. -/
def sha1_init : Nat × Nat × Nat × Nat × Nat :=
  (1732584193, 4023233417, 2562383102, 271733878, 3285377520)

/-- SHA-1 of a byte list, as its 20-byte digest. -/
def sha1 (msg : List Nat) : List Nat :=
  match (chunksOf64 (msg.length + 9) (sha1_pad msg)).foldl sha1_compress sha1_init with
  | (h0, h1, h2, h3, h4) => be4 h0 ++ be4 h1 ++ be4 h2 ++ be4 h3 ++ be4 h4

/-- The eight 5-bit values of one (zero-padded) 5-byte base-32 group. -/
def b32vals5 (a b c d e : Nat) : List Nat :=
  let n := ((a % 256) <<< 32) ||| ((b % 256) <<< 24) ||| ((c % 256) <<< 16) |||
    ((d % 256) <<< 8) ||| (e % 256)
  [(n >>> 35) % 32, (n >>> 30) % 32, (n >>> 25) % 32, (n >>> 20) % 32,
    (n >>> 15) % 32, (n >>> 10) % 32, (n >>> 5) % 32, n % 32]

/-- 5-bit values of a byte list, in 5-byte groups, the last group
zero-padded (as the `base32` crate computes before truncation). -/
def b32vals : List Nat → List Nat
  | [] => []
  | a :: b :: c :: d :: e :: rest => b32vals5 a b c d e ++ b32vals rest
  | [a] => b32vals5 a 0 0 0 0
  | [a, b] => b32vals5 a b 0 0 0
  | [a, b, c] => b32vals5 a b c 0 0
  | [a, b, c, d] => b32vals5 a b c d 0

/-- The RFC 4648 base-32 alphabet, `A`–`Z` followed by `2`–`7`. -/
def base32_alphabet : List Char :=
  (List.range 26).map (fun i => Char.ofNat (65 + i))
    ++ (List.range 6).map (fun i => Char.ofNat (50 + i))

/-- Alphabet character of a 5-bit value. -/
def b32char (v : Nat) : Char := base32_alphabet.getD v 'A'

/-- RFC 4648 base-32 encoding without padding
(`base32::encode(base32::Alphabet::RFC4648 { padding: false }, _)`):
full groups are encoded and the output truncated to `⌈8n/5⌉` characters. -/
def base32_nopad (bytes : List Nat) : String :=
  ⟨((b32vals bytes).take ((8 * bytes.length + 4) / 5)).map b32char⟩

/-- ASCII lower-casing of a code point (the only case Rust's
`to_lowercase` changes on the strings this program produces). -/
def toLowerChar (c : Char) : Char :=
  if 65 ≤ c.toNat ∧ c.toNat ≤ 90 then Char.ofNat (c.toNat + 32) else c

/-- Rust `str::to_lowercase`, modelled character-wise (ASCII case map). -/
def rust_to_lowercase (s : String) : String := ⟨s.data.map toLowerChar⟩

/-- UTF-8 encoding of one code point. -/
def utf8Cp (n : Nat) : List Nat :=
  if n < 128 then [n]
  else if n < 2048 then [192 ||| (n >>> 6), 128 ||| (n &&& 63)]
  else if n < 65536 then
    [224 ||| (n >>> 12), 128 ||| ((n >>> 6) &&& 63), 128 ||| (n &&& 63)]
  else
    [240 ||| (n >>> 18), 128 ||| ((n >>> 12) &&& 63), 128 ||| ((n >>> 6) &&& 63),
      128 ||| (n &&& 63)]

/-- UTF-8 bytes of a string (Rust `String::into_bytes`). -/
def utf8Bytes (s : String) : List Nat := (s.data.map (fun c => utf8Cp c.toNat)).flatten

/-- The `for _ in 0..iterations` loop of `calculate_nsec3_hash`:
each pass replaces the digest by `SHA1(digest ++ salt)`. -/
def hash_loop (salt : List Nat) : Nat → List Nat → List Nat
  | 0, h => h
  | n + 1, h => hash_loop salt n (sha1 (h ++ salt))

/-- The raw 20-byte digest computed inside `calculate_nsec3_hash`
(`src/main.rs:88-102`): `SHA1(lowercase(fqdn) bytes ++ salt)`, then
`iterations` passes of the loop. -/
def nsec3_raw_digest (fqdn : String) (salt_bytes : List Nat) (iterations : Nat) : List Nat :=
  hash_loop salt_bytes iterations (sha1 (utf8Bytes (rust_to_lowercase fqdn) ++ salt_bytes))

/-- `calculate_nsec3_hash` (`src/main.rs:86-106`): the raw digest,
base-32 encoded without padding, lower-cased. -/
def calculate_nsec3_hash (fqdn : String) (salt_bytes : List Nat) (iterations : Nat) : String :=
  rust_to_lowercase (base32_nopad (nsec3_raw_digest fqdn salt_bytes iterations))

/-- Little-endian 32-bit word from four bytes. -/
def leWord (a b c d : Nat) : Nat :=
  (a % 256) ||| ((b % 256) <<< 8) ||| ((c % 256) <<< 16) ||| ((d % 256) <<< 24)

/-- The four little-endian bytes of a 32-bit word. -/
def le4 (w : Nat) : List Nat := [w % 256, (w >>> 8) % 256, (w >>> 16) % 256, (w >>> 24) % 256]

/-- The eight little-endian bytes of a 64-bit value. -/
def le8 (n : Nat) : List Nat := le4 n ++ le4 (n >>> 32)

/-- The sixteen little-endian 32-bit words of a 64-byte block. -/
def toWordsLE : List Nat → List Nat
  | a :: b :: c :: d :: rest => leWord a b c d :: toWordsLE rest
  | _ => []

/-- MD5 padding: like SHA-1 but with a little-endian bit length. -/
def md5_pad (msg : List Nat) : List Nat :=
  msg ++ [128] ++ List.replicate ((119 - msg.length % 64) % 64) 0 ++ le8 (8 * msg.length)

/-- MD5 per-round shift amounts. -/
def md5_s : List Nat :=
  [7, 12, 17, 22, 7, 12, 17, 22, 7, 12, 17, 22, 7, 12, 17, 22,
   5, 9, 14, 20, 5, 9, 14, 20, 5, 9, 14, 20, 5, 9, 14, 20,
   4, 11, 16, 23, 4, 11, 16, 23, 4, 11, 16, 23, 4, 11, 16, 23,
   6, 10, 15, 21, 6, 10, 15, 21, 6, 10, 15, 21, 6, 10, 15, 21]

/-- MD5 per-round additive constants (`⌊2^32·|sin(i+1)|⌋`). -/
def md5_kt : List Nat :=
  [0xd76aa478, 0xe8c7b756, 0x242070db, 0xc1bdceee,
   0xf57c0faf, 0x4787c62a, 0xa8304613, 0xfd469501,
   0x698098d8, 0x8b44f7af, 0xffff5bb1, 0x895cd7be,
   0x6b901122, 0xfd987193, 0xa679438e, 0x49b40821,
   0xf61e2562, 0xc040b340, 0x265e5a51, 0xe9b6c7aa,
   0xd62f105d, 0x02441453, 0xd8a1e681, 0xe7d3fbc8,
   0x21e1cde6, 0xc33707d6, 0xf4d50d87, 0x455a14ed,
   0xa9e3e905, 0xfcefa3f8, 0x676f02d9, 0x8d2a4c8a,
   0xfffa3942, 0x8771f681, 0x6d9d6122, 0xfde5380c,
   0xa4beea44, 0x4bdecfa9, 0xf6bb4b60, 0xbebfbc70,
   0x289b7ec6, 0xeaa127fa, 0xd4ef3085, 0x04881d05,
   0xd9d4d039, 0xe6db99e5, 0x1fa27cf8, 0xc4ac5665,
   0xf4292244, 0x432aff97, 0xab9423a7, 0xfc93a039,
   0x655b59c3, 0x8f0ccc92, 0xffeff47d, 0x85845dd1,
   0x6fa87e4f, 0xfe2ce6e0, 0xa3014314, 0x4e0811a1,
   0xf7537e82, 0xbd3af235, 0x2ad7d2bb, 0xeb86d391]

/-- MD5 mixing function, by round number. -/
def md5_f (i b c d : Nat) : Nat :=
  if i < 16 then (b &&& c) ||| ((b ^^^ 4294967295) &&& d)
  else if i < 32 then (d &&& b) ||| ((d ^^^ 4294967295) &&& c)
  else if i < 48 then b ^^^ c ^^^ d
  else c ^^^ (b ||| (d ^^^ 4294967295))

/-- MD5 message-word index, by round number. -/
def md5_g (i : Nat) : Nat :=
  if i < 16 then i
  else if i < 32 then (5 * i + 1) % 16
  else if i < 48 then (3 * i + 5) % 16
  else (7 * i) % 16

/-- One MD5 round on the working state `(a, b, c, d)`. -/
def md5_step (m : List Nat) (st : Nat × Nat × Nat × Nat) (i : Nat) : Nat × Nat × Nat × Nat :=
  match st with
  | (a, b, c, d) =>
      let f := (md5_f i b c d + a + md5_kt.getD i 0 + m.getD (md5_g i) 0) % M32
      (d, (b + rotl (md5_s.getD i 0) f) % M32, b, c)

/-- MD5 compression of one 64-byte block into the running state. -/
def md5_compress (h : Nat × Nat × Nat × Nat) (block : List Nat) : Nat × Nat × Nat × Nat :=
  let m := toWordsLE block
  match h, (List.range 64).foldl (md5_step m) h with
  | (h0, h1, h2, h3), (a, b, c, d) =>
      ((h0 + a) % M32, (h1 + b) % M32, (h2 + c) % M32, (h3 + d) % M32)

/-- MD5 initial state. -/
def md5_init : Nat × Nat × Nat × Nat := (0x67452301, 0xefcdab89, 0x98badcfe, 0x10325476)

/-- MD5 of a byte list, as its 16-byte digest. -/
def md5 (msg : List Nat) : List Nat :=
  match (chunksOf64 (msg.length + 9) (md5_pad msg)).foldl md5_compress md5_init with
  | (a, b, c, d) => le4 a ++ le4 b ++ le4 c ++ le4 d

/-- The lower-case hexadecimal digit character of a value below 16. -/
def hexChar (n : Nat) : Char :=
  Char.ofNat (if n < 10 then 48 + n else 87 + n)

/-- Two lower-case hex characters of one byte (`format!("\x7b:x\x7d")` per byte). -/
def byteHex (b : Nat) : List Char := [hexChar ((b >>> 4) % 16), hexChar (b % 16)]

/-- Lower-case hex rendering of the MD5 digest of a byte list. -/
def md5_hex (msg : List Nat) : String := ⟨((md5 msg).map byteHex).flatten⟩

/-- Decimal digit list of a `Nat` (fuel-driven so that it reduces). -/
def natDigitsAux : Nat → Nat → List Char → List Char
  | 0, _, acc => acc
  | fuel + 1, n, acc =>
      if n < 10 then hexChar n :: acc else natDigitsAux fuel (n / 10) (hexChar (n % 10) :: acc)

/-- Decimal rendering of a `Nat` (Rust `format!` of an integer). -/
def natDecString (n : Nat) : String := ⟨natDigitsAux (n + 1) n []⟩

/-- `get_cache_filename` (`src/main.rs:122-128`): MD5 of
`"<salt>_<iterations>"`, in lower-case hex, wrapped as
`nsec3_<hex>.json`. -/
def get_cache_filename (salt : String) (iterations : Nat) : String :=
  "nsec3_" ++ md5_hex (utf8Bytes (salt ++ "_" ++ natDecString iterations)) ++ ".json"

/-- Value of a hex digit character, or `none` (as `hex::decode` accepts). -/
def hexDigitVal (c : Char) : Option Nat :=
  if 48 ≤ c.toNat ∧ c.toNat ≤ 57 then some (c.toNat - 48)
  else if 97 ≤ c.toNat ∧ c.toNat ≤ 102 then some (c.toNat - 87)
  else if 65 ≤ c.toNat ∧ c.toNat ≤ 70 then some (c.toNat - 55)
  else none

/-- `hex::decode` on a character list: fails on an odd length or any
non-hex-digit character. -/
def hexDecodeChars : List Char → Option (List Nat)
  | [] => some []
  | a :: b :: rest =>
      match hexDigitVal a, hexDigitVal b, hexDecodeChars rest with
      | some x, some y, some tail => some ((16 * x + y) :: tail)
      | _, _, _ => none
  | [_] => none

/-- `hex::decode` on a string. -/
def hex_decode (s : String) : Option (List Nat) := hexDecodeChars s.data

/-- Salt parsing (`src/main.rs:223-227` and `407-414`): empty salt gives
no bytes; otherwise hex-decode, falling back to the literal UTF-8 bytes
when the text is not valid hex. -/
def parse_salt (salt : String) : List Nat :=
  if salt = "" then [] else (hex_decode salt).getD (utf8Bytes salt)

/-- ASCII whitespace recognised by the trim model. -/
def isWs (c : Char) : Bool := c == ' ' || c == '\t' || c == '\n' || c == '\r'

/-- Rust `str::trim`, modelled on ASCII whitespace. -/
def rust_trim (s : String) : String :=
  ⟨((s.data.dropWhile isWs).reverse.dropWhile isWs).reverse⟩

/-- `load_wordlist` (`src/main.rs:109-119`) on the lines of the file:
trim each line and drop the empty ones. -/
def load_wordlist (lines : List String) : List String :=
  (lines.map rust_trim).filter (fun l => !(l == ""))

/-- `HashMap::insert` on an association list with unique keys:
replace the binding of the key in place, or append a fresh one. -/
def insertKV : List (String × String) → String → String → List (String × String)
  | [], k, v => [(k, v)]
  | (k0, v0) :: rest, k, v =>
      if k0 = k then (k, v) :: rest else (k0, v0) :: insertKV rest k v

/-- `HashMap::get`: the value bound to a key, if any. -/
def lookupKV : List (String × String) → String → Option String
  | [], _ => none
  | (k0, v0) :: rest, k => if k0 = k then some v0 else lookupKV rest k

/-- The reverse lookup table built by `generate_hash_for_config`
(`src/main.rs:230-237`).  The candidate list is taken in insertion
order: the program inserts one `(hash fqdn, fqdn)` pair per candidate
into the shared map, so the table is the left fold of those
insertions. -/
def build_table (domain : String) (salt_bytes : List Nat) (iterations : Nat)
    (cands : List String) : List (String × String) :=
  cands.foldl (fun tbl c =>
    insertKV tbl (calculate_nsec3_hash (c ++ "." ++ domain) salt_bytes iterations)
      (c ++ "." ++ domain)) []

/-- The persisted cache artifact (`struct CacheFile`, `src/main.rs:76-83`). -/
structure CacheFile where
  domain : String
  salt : String
  iterations : Nat
  wordlist_size : Nat
  hashes : List (String × String)
  deriving DecidableEq

/-- The pure content of `generate_hash_for_config` (`src/main.rs:212-263`):
load the wordlist, parse the salt, build the reverse lookup table, and
assemble the cache artifact. -/
def generate_hash_for_config (domain : String) (wordlist_lines : List String)
    (salt : String) (iterations : Nat) : CacheFile :=
  let subdomains := load_wordlist wordlist_lines
  let salt_bytes := parse_salt salt
  { domain := domain
    salt := salt
    iterations := iterations
    wordlist_size := subdomains.length
    hashes := build_table domain salt_bytes iterations subdomains }

/-- The eight named batch presets of `generate_common_configs`
(`src/main.rs:286-295`): `(name, salt, iterations)`. -/
def common_configs : List (String × String × Nat) :=
  [("No salt, no iterations (30% of NSEC3 domains)", "", 0),
   ("Google Cloud DNS", "DEADBEEF", 5),
   ("AWS Route53", "CAFEBABE", 10),
   ("Cloudflare minimal", "00", 0),
   ("Light security", "AABBCCDD", 3),
   ("Medium security", "12345678", 5),
   ("High security", "FEDCBA98", 10),
   ("Very high security", "FFFFFFFF", 15)]

/-- The batch orchestrator (`src/main.rs:300-342`): every preset is
processed in order; a per-configuration cache-write failure (abstracted
by `write_result`) is caught by the `match` in the loop body and
recorded, never propagated; the function returns `Ok(())` regardless. -/
def generate_common_configs (write_result : String → Nat → Except String Unit)
    (domain : String) (wordlist_lines : List String) :
    List (Except String CacheFile) × Except String Unit :=
  (common_configs.map (fun c =>
    match write_result c.2.1 c.2.2 with
    | Except.ok _ => Except.ok (generate_hash_for_config domain wordlist_lines c.2.1 c.2.2)
    | Except.error e => Except.error e),
   Except.ok ())

/-- The digest chain exactly as the specification words it:
`digest₀ = SHA-1(lowercase(fqdn) bytes ++ salt)` and
`digestᵢ = SHA-1(digestᵢ₋₁ ++ salt)`.  Stated from the spec, to be
compared with the digest the program computes. -/
def spec_digest_chain (fqdn : String) (salt : List Nat) : Nat → List Nat
  | 0 => sha1 (utf8Bytes (rust_to_lowercase fqdn) ++ salt)
  | n + 1 => sha1 (spec_digest_chain fqdn salt n ++ salt)

/-- The output alphabet the specification requires: lower-case RFC 4648
base-32 characters, `a`–`z` and `2`–`7`. -/
def spec_b32_lower_alphabet : List Char :=
  (List.range 26).map (fun i => Char.ofNat (97 + i))
    ++ (List.range 6).map (fun i => Char.ofNat (50 + i))

/-- Number of hash-key collisions in a candidate run: entries whose key
occurs again later in the insertion sequence (equivalently, the number
of insertions that overwrite rather than extend the table). -/
def dupCount : List String → Nat
  | [] => 0
  | x :: xs => dupCount xs + (if x ∈ xs then 1 else 0)

/-- An example cache-write outcome for the batch orchestrator: the third
preset ("AWS Route53", salt `CAFEBABE`) fails, every other write
succeeds. -/
def write_fail_example (salt : String) (iterations : Nat) : Except String Unit :=
  if salt = "CAFEBABE" ∧ iterations = 10 then Except.error "permission denied" else Except.ok ()

/-- A helper shape lemma: serialising any five 32-bit words to
big-endian bytes yields 20 bytes. -/
theorem length_sha1_serialize (t : Nat × Nat × Nat × Nat × Nat) :
    (match t with
     | (h0, h1, h2, h3, h4) => be4 h0 ++ be4 h1 ++ be4 h2 ++ be4 h3 ++ be4 h4).length = 20 := by
  rcases t with ⟨a, b, c, d, e⟩
  simp [be4]

/-- SHA-1 always produces a 20-byte digest. -/
theorem sha1_length (msg : List Nat) : (sha1 msg).length = 20 :=
  length_sha1_serialize _

/-- The iteration loop keeps the digest at 20 bytes. -/
theorem hash_loop_length (salt : List Nat) (n : Nat) :
    ∀ h : List Nat, h.length = 20 → (hash_loop salt n h).length = 20 := by
  induction n with
  | zero => intro h hh; exact hh
  | succ n ih => intro h _; exact ih _ (sha1_length _)

/-- The raw digest inside `calculate_nsec3_hash` is always 20 bytes. -/
theorem nsec3_raw_digest_length (fqdn : String) (salt : List Nat) (n : Nat) :
    (nsec3_raw_digest fqdn salt n).length = 20 :=
  hash_loop_length salt n _ (sha1_length _)

/-- One pass of the iteration loop, peeled from the end. -/
theorem hash_loop_succ_out (salt : List Nat) (n : Nat) :
    ∀ h : List Nat, hash_loop salt (n + 1) h = sha1 (hash_loop salt n h ++ salt) := by
  induction n with
  | zero => intro h; rfl
  | succ n ih =>
      intro h
      calc hash_loop salt (n + 2) h = hash_loop salt (n + 1) (sha1 (h ++ salt)) := rfl
        _ = sha1 (hash_loop salt n (sha1 (h ++ salt)) ++ salt) := ih _
        _ = sha1 (hash_loop salt (n + 1) h ++ salt) := rfl

/-- The program's raw digest equals the spec's digest chain. -/
theorem nsec3_raw_digest_eq_chain (fqdn : String) (salt : List Nat) (n : Nat) :
    nsec3_raw_digest fqdn salt n = spec_digest_chain fqdn salt n := by
  induction n with
  | zero => rfl
  | succ n ih =>
      rw [spec_digest_chain, ← ih, nsec3_raw_digest, nsec3_raw_digest, hash_loop_succ_out]

/-- C1: for every FQDN, salt byte sequence and iteration count `n`,
`calculate_nsec3_hash` returns the lower-cased unpadded RFC 4648
base-32 encoding of `digestₙ`, where `digest₀ = SHA-1(lowercase(fqdn)
bytes ++ salt)` and `digestᵢ = SHA-1(digestᵢ₋₁ ++ salt)`; with `n = 0`
the result is the encoding of the single initial SHA-1 digest, the
loop contributing nothing. -/
theorem nsec3_hash_is_spec_digest_chain (fqdn : String) (salt : List Nat) (n : Nat) :
    calculate_nsec3_hash fqdn salt n
        = rust_to_lowercase (base32_nopad (spec_digest_chain fqdn salt n))
    ∧ calculate_nsec3_hash fqdn salt 0
        = rust_to_lowercase (base32_nopad (sha1 (utf8Bytes (rust_to_lowercase fqdn) ++ salt))) :=
  ⟨by rw [calculate_nsec3_hash, nsec3_raw_digest_eq_chain], rfl⟩

/-- C2: one more iteration chains one more `SHA-1(prev ++ salt)` round
onto the raw 20-byte digest underlying the hash at `n` — the iteration
operates on raw digest bytes, never on the encoded base-32 string. -/
theorem nsec3_hash_succ_chains_raw_digest (fqdn : String) (salt : List Nat) (n : Nat) :
    calculate_nsec3_hash fqdn salt (n + 1)
      = rust_to_lowercase (base32_nopad (sha1 (nsec3_raw_digest fqdn salt n ++ salt))) := by
  rw [calculate_nsec3_hash, nsec3_raw_digest, hash_loop_succ_out, ← nsec3_raw_digest]

/-- The number of 5-bit values produced from `n` bytes is `8·⌈n/5⌉`. -/
theorem b32vals_length (l : List Nat) : (b32vals l).length = 8 * ((l.length + 4) / 5) := by
  induction l using b32vals.induct <;> (simp_all [b32vals, b32vals5]; try omega)

/-- Every value of one 5-byte group is below 32. -/
theorem b32vals5_lt (a b c d e : Nat) : ∀ v ∈ b32vals5 a b c d e, v < 32 := by
  simp [b32vals5]
  omega

/-- Every 5-bit value produced by the base-32 grouping is below 32. -/
theorem b32vals_lt (l : List Nat) : ∀ v ∈ b32vals l, v < 32 := by
  induction l using b32vals.induct with
  | case1 => intro v hv; simp [b32vals] at hv
  | case2 a b c d e rest ih =>
      intro v hv
      rw [b32vals] at hv
      rcases List.mem_append.1 hv with h | h
      · exact b32vals5_lt _ _ _ _ _ v h
      · exact ih v h
  | case3 a => exact b32vals5_lt _ _ _ _ _
  | case4 a b => exact b32vals5_lt _ _ _ _ _
  | case5 a b c => exact b32vals5_lt _ _ _ _ _
  | case6 a b c d => exact b32vals5_lt _ _ _ _ _

/-- Every 5-bit value maps to a lower-case RFC 4648 base-32 character. -/
theorem b32char_lower_mem : ∀ v, v < 32 → toLowerChar (b32char v) ∈ spec_b32_lower_alphabet := by
  decide

/-- C3: the hash output always has exactly 32 characters, all of them
lower-case RFC 4648 base-32 alphabet characters (`a`–`z`, `2`–`7`),
with no padding characters. -/
theorem nsec3_hash_output_format (fqdn : String) (salt : List Nat) (n : Nat) :
    (calculate_nsec3_hash fqdn salt n).length = 32
    ∧ ∀ c ∈ (calculate_nsec3_hash fqdn salt n).data, c ∈ spec_b32_lower_alphabet := by
  have hraw : (nsec3_raw_digest fqdn salt n).length = 20 := nsec3_raw_digest_length fqdn salt n
  have hvals : (b32vals (nsec3_raw_digest fqdn salt n)).length = 32 := by
    rw [b32vals_length, hraw]
  constructor
  · show (rust_to_lowercase (base32_nopad (nsec3_raw_digest fqdn salt n))).length = 32
    simp [rust_to_lowercase, base32_nopad, String.length, hraw, hvals]
  · intro c hc
    have hc' : c ∈ (((b32vals (nsec3_raw_digest fqdn salt n)).take
        ((8 * (nsec3_raw_digest fqdn salt n).length + 4) / 5)).map b32char).map toLowerChar := hc
    rcases List.mem_map.1 hc' with ⟨c0, hc0, rfl⟩
    rcases List.mem_map.1 hc0 with ⟨v, hv, rfl⟩
    exact b32char_lower_mem v (b32vals_lt _ v (List.take_subset _ _ hv))

/-- Packing a valid code point into a `Char` and unpacking it is the
identity. -/
theorem toNat_ofNat_of_valid {n : Nat} (h : n.isValidChar) : (Char.ofNat n).toNat = n := by
  unfold Char.ofNat
  rw [dif_pos h]
  rfl

/-- The ASCII lower-casing map is idempotent. -/
theorem toLowerChar_idem (c : Char) : toLowerChar (toLowerChar c) = toLowerChar c := by
  by_cases h : 65 ≤ c.toNat ∧ c.toNat ≤ 90
  · have h1 : toLowerChar c = Char.ofNat (c.toNat + 32) := by rw [toLowerChar, if_pos h]
    have ht : (Char.ofNat (c.toNat + 32)).toNat = c.toNat + 32 :=
      toNat_ofNat_of_valid (Or.inl (by omega))
    rw [h1, toLowerChar, ht, if_neg (by omega)]
  · have h1 : toLowerChar c = c := by rw [toLowerChar, if_neg h]
    rw [h1]
    exact h1

/-- Lower-casing a string twice equals lower-casing it once. -/
theorem rust_to_lowercase_idem (s : String) :
    rust_to_lowercase (rust_to_lowercase s) = rust_to_lowercase s := by
  simp [rust_to_lowercase, List.map_map, Function.comp_def, toLowerChar_idem]

/-- The hash only sees the lower-cased FQDN: hashing a name and hashing
its lower-cased form agree. -/
theorem calculate_nsec3_hash_lower_invariant (fqdn : String) (salt : List Nat) (n : Nat) :
    calculate_nsec3_hash (rust_to_lowercase fqdn) salt n = calculate_nsec3_hash fqdn salt n := by
  simp [calculate_nsec3_hash, nsec3_raw_digest, rust_to_lowercase_idem]

/-- C9: the table entry for a candidate label stores the FQDN
`label ++ "." ++ domain` with the label's original character case as the
value, keyed by the hash of the lower-cased form of that FQDN. -/
theorem table_entry_case_semantics (label domain : String) (salt : List Nat) (n : Nat) :
    build_table domain salt n [label]
      = [(calculate_nsec3_hash (rust_to_lowercase (label ++ "." ++ domain)) salt n,
          label ++ "." ++ domain)] := by
  simp [build_table, insertKV, calculate_nsec3_hash_lower_invariant]

/-- Inserting then looking up the same key yields the inserted value. -/
theorem lookupKV_insertKV_self (m : List (String × String)) (k v : String) :
    lookupKV (insertKV m k v) k = some v := by
  induction m with
  | nil => simp [insertKV, lookupKV]
  | cons p rest ih =>
      obtain ⟨k0, v0⟩ := p
      by_cases h : k0 = k
      · simp [insertKV, h, lookupKV]
      · simp [insertKV, h, lookupKV, ih]

/-- Insertion leaves other keys' lookups unchanged. -/
theorem lookupKV_insertKV_ne (m : List (String × String)) (k v k' : String) (h : k' ≠ k) :
    lookupKV (insertKV m k v) k' = lookupKV m k' := by
  induction m with
  | nil => simp [insertKV, lookupKV, Ne.symm h]
  | cons p rest ih =>
      obtain ⟨k0, v0⟩ := p
      by_cases h0 : k0 = k
      · subst h0
        simp [insertKV, lookupKV, Ne.symm h]
      · simp [insertKV, h0, lookupKV, ih]

/-- Insertion either leaves the key list unchanged (overwrite) or
appends the new key at the end. -/
theorem keys_insertKV (m : List (String × String)) (k v : String) :
    (insertKV m k v).map Prod.fst
      = if k ∈ m.map Prod.fst then m.map Prod.fst else m.map Prod.fst ++ [k] := by
  induction m with
  | nil => simp [insertKV]
  | cons p rest ih =>
      obtain ⟨k0, v0⟩ := p
      by_cases h0 : k0 = k
      · subst h0
        simp [insertKV]
      · by_cases hm : k ∈ rest.map Prod.fst
        · simp [insertKV, h0, ih, hm, Ne.symm h0]
        · simp [insertKV, h0, ih, hm, Ne.symm h0]

/-- Insertion preserves distinctness of the keys. -/
theorem keys_nodup_insertKV (m : List (String × String)) (k v : String)
    (h : (m.map Prod.fst).Nodup) : ((insertKV m k v).map Prod.fst).Nodup := by
  rw [keys_insertKV]
  split_ifs with hm
  · exact h
  · simp [List.nodup_append, h, hm]

/-- Membership in the keys after an insertion. -/
theorem mem_keys_insertKV (m : List (String × String)) (k v k' : String) :
    k' ∈ (insertKV m k v).map Prod.fst ↔ k' ∈ m.map Prod.fst ∨ k' = k := by
  rw [keys_insertKV]
  split_ifs with hm
  · constructor
    · exact fun h => Or.inl h
    · rintro (h | rfl)
      · exact h
      · exact hm
  · simp [List.mem_append]

/-- Length after an insertion: unchanged on an overwrite, one more on a
fresh key. -/
theorem length_insertKV (m : List (String × String)) (k v : String) :
    (insertKV m k v).length = if k ∈ m.map Prod.fst then m.length else m.length + 1 := by
  have h := congrArg List.length (keys_insertKV m k v)
  by_cases hm : k ∈ m.map Prod.fst
  · rw [if_pos hm] at h
    rw [if_pos hm]
    simpa using h
  · rw [if_neg hm] at h
    rw [if_neg hm]
    simpa using h

/-- Extending the candidate list by one candidate performs exactly one
more insertion. -/
theorem build_table_snoc (d : String) (s : List Nat) (n : Nat) (cs : List String) (c : String) :
    build_table d s n (cs ++ [c])
      = insertKV (build_table d s n cs) (calculate_nsec3_hash (c ++ "." ++ d) s n)
          (c ++ "." ++ d) := by
  simp [build_table, List.foldl_append]

/-- The keys of the reverse lookup table are distinct. -/
theorem build_table_keys_nodup (d : String) (s : List Nat) (n : Nat) (cs : List String) :
    ((build_table d s n cs).map Prod.fst).Nodup := by
  induction cs using List.reverseRecOn with
  | nil => simp [build_table]
  | append_singleton l a ih =>
      rw [build_table_snoc]
      exact keys_nodup_insertKV _ _ _ ih

/-- The table's keys are exactly the hashes of the candidates' FQDNs. -/
theorem build_table_mem_keys (d : String) (s : List Nat) (n : Nat) (cs : List String) :
    ∀ k, k ∈ (build_table d s n cs).map Prod.fst
      ↔ k ∈ cs.map (fun c => calculate_nsec3_hash (c ++ "." ++ d) s n) := by
  induction cs using List.reverseRecOn with
  | nil => simp [build_table]
  | append_singleton l a ih =>
      intro k
      rw [build_table_snoc, mem_keys_insertKV]
      simp [ih k]

/-- Looking up a key returns the FQDN of the last-inserted candidate
hashing to it. -/
theorem build_table_lookup_last (d : String) (s : List Nat) (n : Nat) (cs : List String) :
    ∀ k, lookupKV (build_table d s n cs) k
      = (cs.reverse.find? (fun c => calculate_nsec3_hash (c ++ "." ++ d) s n == k)).map
          (fun c => c ++ "." ++ d) := by
  induction cs using List.reverseRecOn with
  | nil => intro k; simp [build_table, lookupKV]
  | append_singleton l a ih =>
      intro k
      rw [build_table_snoc, List.reverse_append]
      by_cases h : calculate_nsec3_hash (a ++ "." ++ d) s n = k
      · subst h
        rw [lookupKV_insertKV_self]
        simp
      · rw [lookupKV_insertKV_ne _ _ _ _ (fun he => h he.symm), ih k]
        simp [List.find?_cons_of_neg, h]

/-- A list's length is the number of its distinct elements plus the
number of its duplicated positions. -/
theorem length_eq_card_add_dupCount (l : List String) :
    l.length = l.toFinset.card + dupCount l := by
  induction l with
  | nil => simp [dupCount]
  | cons x xs ih =>
      rw [List.toFinset_cons]
      by_cases h : x ∈ xs
      · rw [Finset.insert_eq_self.2 (List.mem_toFinset.2 h)]
        simp only [dupCount, if_pos h, List.length_cons]
        omega
      · rw [Finset.card_insert_of_not_mem (fun hc => h (List.mem_toFinset.1 hc))]
        simp only [dupCount, if_neg h, List.length_cons]
        omega

/-- The table's size is the number of distinct candidate hashes. -/
theorem build_table_length_card (d : String) (s : List Nat) (n : Nat) (cs : List String) :
    (build_table d s n cs).length
      = (cs.map (fun c => calculate_nsec3_hash (c ++ "." ++ d) s n)).toFinset.card := by
  have hkeys : ((build_table d s n cs).map Prod.fst).toFinset
      = (cs.map (fun c => calculate_nsec3_hash (c ++ "." ++ d) s n)).toFinset := by
    apply Finset.ext
    intro k
    simp only [List.mem_toFinset]
    exact build_table_mem_keys d s n cs k
  calc (build_table d s n cs).length
      = ((build_table d s n cs).map Prod.fst).length := (List.length_map _ _).symm
    _ = ((build_table d s n cs).map Prod.fst).toFinset.card :=
        (List.toFinset_card_of_nodup (build_table_keys_nodup d s n cs)).symm
    _ = (cs.map (fun c => calculate_nsec3_hash (c ++ "." ++ d) s n)).toFinset.card := by
        rw [hkeys]

/-- C5: the reverse lookup table holds exactly one entry per distinct
hash key; a key maps to the candidate whose insertion happened last
(last-write-wins, no error), and the table's size is the number of
candidates minus the number of collisions. -/
theorem table_last_write_wins (domain : String) (salt : List Nat) (n : Nat)
    (cands : List String) :
    ((build_table domain salt n cands).map Prod.fst).Nodup
    ∧ (∀ k, k ∈ (build_table domain salt n cands).map Prod.fst
        ↔ k ∈ cands.map (fun c => calculate_nsec3_hash (c ++ "." ++ domain) salt n))
    ∧ (∀ k, lookupKV (build_table domain salt n cands) k
        = (cands.reverse.find?
            (fun c => calculate_nsec3_hash (c ++ "." ++ domain) salt n == k)).map
            (fun c => c ++ "." ++ domain))
    ∧ (build_table domain salt n cands).length
        + dupCount (cands.map (fun c => calculate_nsec3_hash (c ++ "." ++ domain) salt n))
        = cands.length := by
  refine ⟨build_table_keys_nodup domain salt n cands,
    build_table_mem_keys domain salt n cands,
    build_table_lookup_last domain salt n cands, ?_⟩
  rw [build_table_length_card]
  have h := length_eq_card_add_dupCount
    (cands.map (fun c => calculate_nsec3_hash (c ++ "." ++ domain) salt n))
  rw [List.length_map] at h
  omega

/-- C4: the cache filename is `nsec3_` ++ the lower-case hex MD5 of the
UTF-8 bytes of `<salt>_<iterations>` ++ `.json`; by its signature it
depends on nothing but the salt text and the iteration count (not the
domain or wordlist), and the eight named batch presets all produce
pairwise distinct filenames. -/
theorem cache_filename_format_and_presets_distinct :
    (∀ s i, get_cache_filename s i
        = "nsec3_" ++ md5_hex (utf8Bytes (s ++ "_" ++ natDecString i)) ++ ".json")
    ∧ (common_configs.map (fun c => get_cache_filename c.2.1 c.2.2)).Nodup :=
  ⟨fun _ _ => rfl, by set_option maxRecDepth 100000 in decide⟩

/-- C6: the pipeline on wordlist `["www", "mail"]`, domain
`example.com`, empty salt and 0 iterations yields a reverse lookup
table with exactly the two expected entries and `wordlist_size = 2`;
blank lines and surrounding whitespace are stripped during loading, so
a raw line list `[" www ", "", "mail"]` produces the same artifact. -/
theorem end_to_end_two_candidates :
    (generate_hash_for_config "example.com" ["www", "mail"] "" 0).hashes.length = 2
    ∧ lookupKV (generate_hash_for_config "example.com" ["www", "mail"] "" 0).hashes
        (calculate_nsec3_hash "www.example.com" [] 0) = some "www.example.com"
    ∧ lookupKV (generate_hash_for_config "example.com" ["www", "mail"] "" 0).hashes
        (calculate_nsec3_hash "mail.example.com" [] 0) = some "mail.example.com"
    ∧ (generate_hash_for_config "example.com" ["www", "mail"] "" 0).wordlist_size = 2
    ∧ generate_hash_for_config "example.com" [" www ", "", "mail"] "" 0
        = generate_hash_for_config "example.com" ["www", "mail"] "" 0 := by
  set_option maxRecDepth 100000 in decide

/-- C7: salt parsing cannot fail: whenever `hex::decode` rejects the
salt text, the literal UTF-8 bytes of the text are used instead and
processing continues, and the empty salt string yields an empty salt
byte sequence. -/
theorem salt_parse_never_fails (s : String) :
    (hex_decode s = none → parse_salt s = utf8Bytes s) ∧ parse_salt "" = [] := by
  refine ⟨?_, rfl⟩
  intro h
  have hs : ¬ s = "" := by
    intro he
    rw [he] at h
    exact Option.noConfusion h
  rw [parse_salt, if_neg hs, h]
  rfl

/-- Witness for C7 at the concrete non-hex salt `"zz"`. -/
theorem salt_parse_never_fails_witness :
    hex_decode "zz" = none ∧ parse_salt "zz" = utf8Bytes "zz" :=
  ⟨by decide, (salt_parse_never_fails "zz").1 (by decide)⟩

/-- C8: the batch orchestrator processes every preset in order whatever
the per-configuration cache-write outcomes are: the overall run returns
`Ok(())`, one result is recorded per configuration, a configuration
whose write succeeds contributes its cache artifact, and one whose
write fails contributes only its logged error. -/
theorem batch_continues_after_failure (write_result : String → Nat → Except String Unit)
    (domain : String) (lines : List String) :
    (generate_common_configs write_result domain lines).2 = Except.ok ()
    ∧ (generate_common_configs write_result domain lines).1.length = common_configs.length
    ∧ (∀ i, i < common_configs.length →
        write_result (common_configs.getD i default).2.1 (common_configs.getD i default).2.2
            = Except.ok () →
          (generate_common_configs write_result domain lines).1.getD i (Except.error "")
            = Except.ok (generate_hash_for_config domain lines
                (common_configs.getD i default).2.1 (common_configs.getD i default).2.2))
    ∧ (∀ i e, i < common_configs.length →
        write_result (common_configs.getD i default).2.1 (common_configs.getD i default).2.2
            = Except.error e →
          (generate_common_configs write_result domain lines).1.getD i (Except.error "")
            = Except.error e) := by
  refine ⟨rfl, rfl, ?_, ?_⟩
  · intro i hi hw
    have hi8 : i < 8 := hi
    interval_cases i <;> simp_all [generate_common_configs, common_configs]
  · intro i e hi hw
    have hi8 : i < 8 := hi
    interval_cases i <;> simp_all [generate_common_configs, common_configs]

/-- Witness for C8: with the example outcome that fails the third
preset's write, the fourth preset (index 3) still produces its cache
artifact and the run returns `Ok(())`. -/
theorem batch_continues_after_failure_witness :
    ((3 : Nat) < common_configs.length
      ∧ write_fail_example (common_configs.getD 3 default).2.1
          (common_configs.getD 3 default).2.2 = Except.ok ())
    ∧ (generate_common_configs write_fail_example "example.com" ["www"]).1.getD 3
          (Except.error "")
        = Except.ok (generate_hash_for_config "example.com" ["www"]
            (common_configs.getD 3 default).2.1 (common_configs.getD 3 default).2.2) :=
  ⟨⟨by decide, by simp [write_fail_example, common_configs]⟩,
    (batch_continues_after_failure write_fail_example "example.com" ["www"]).2.2.1 3
      (by decide) (by simp [write_fail_example, common_configs])⟩

/-- C10: two salt texts that decode to the same bytes make every
candidate hash identically (hashing uses the decoded bytes), yet, as at
the pair `"ab"`/`"AB"`, they produce different cache filenames at every
preset iteration count, because the cache key is computed from the salt
text. -/
theorem salt_text_vs_salt_bytes (s1 s2 : String) (h : parse_salt s1 = parse_salt s2) :
    (∀ fqdn n, calculate_nsec3_hash fqdn (parse_salt s1) n
        = calculate_nsec3_hash fqdn (parse_salt s2) n)
    ∧ parse_salt "ab" = parse_salt "AB"
    ∧ ("ab" : String) ≠ "AB"
    ∧ ∀ i ∈ ([0, 3, 5, 10, 15] : List Nat),
        get_cache_filename "ab" i ≠ get_cache_filename "AB" i := by
  refine ⟨fun fqdn n => by rw [h], by decide, by decide, by decide⟩

/-- Witness for C10 at the concrete pair `"ab"`/`"AB"`. -/
theorem salt_text_vs_salt_bytes_witness :
    parse_salt "ab" = parse_salt "AB"
    ∧ calculate_nsec3_hash "www.example.com" (parse_salt "ab") 0
        = calculate_nsec3_hash "www.example.com" (parse_salt "AB") 0 :=
  ⟨by decide, (salt_text_vs_salt_bytes "ab" "AB" (by decide)).1 "www.example.com" 0⟩
